import Mathlib

/-!
Verification development for the Aura inbound-processing backend.

Shallow embedding of the TypeScript sources:
  src/Aura-backend/src/services/product-normalizer.service.ts
  src/Aura-backend/src/services/catalog.service.ts
  src/Aura-backend/src/services/aimotive.client.ts (vehicle section)
  src/Aura-backend/src/routes/webhook.ts

Conventions.
JavaScript numbers are modelled as rationals where the code only manipulates
finite numeric data (prices, turnover), and as real numbers where the code
computes square roots (embedding norms).  A missing (undefined) field of an
object is an Option none.  JavaScript stable Array.prototype.sort with a
total-preorder comparator is modelled by List.insertionSort, which is stable
and sorts by the corresponding boolean relation.  Fallible external calls are
passed in as Except-valued parameters.
-/

namespace Aura

/-! ### Data model: products (src/services/types/products.ts) -/

/-- Warehouse stock record, from types/products.ts. -/
structure Warehouse where
  code : String
  name : String
  stock : ℚ
  isExternal : Option Bool
deriving DecidableEq, Repr

/-- Product record, from types/products.ts.  Optional JS fields are Options;
products.service.ts guarantees numeric fields are finite numbers when present. -/
structure Product where
  ref : String
  commercialRef : Option String
  name : String
  brandCode : Option String
  brandName : Option String
  isAvailable : Option Bool
  price : Option ℚ
  taxes : Option ℚ
  discount : Option ℚ
  vat : Option ℚ
  turnover : Option ℚ
  warehouses : List Warehouse
deriving DecidableEq, Repr

/-! ### ProductSelector (src/services/product-normalizer.service.ts) -/

/-- The six registered special family ids (product-normalizer.service.ts lines 4-6). -/
def SPECIAL_FAMILIES : List ℤ := [100391, 100121, 100199, 104391, 100415, 100579]

/-- Per-family normalization (product-normalizer.service.ts lines 8-21).
The familyId is number-or-null; the JS test `!familyId` is true for null and 0.
Both branches of the source return the same passthrough value. -/
def normalizeByFamily (familyId : Option ℤ) (products : List Product)
    (_userText : String) : List Product × List Product :=
  let falsy : Bool := match familyId with
    | none => true
    | some i => i == 0
  if falsy || !(SPECIAL_FAMILIES.contains (familyId.getD 0)) then
    (products, [])
  else
    (products, [])

/-- Turnover sort key: Number(a.turnover || 0) (line 27). -/
def turnoverVal (p : Product) : ℚ := p.turnover.getD 0

/-- Price sort key: Number.isFinite(Number(a.price)) ? Number(a.price)
: Number.POSITIVE_INFINITY (lines 31-32); a missing price sorts as infinite. -/
def priceKey (p : Product) : WithTop ℚ :=
  match p.price with
  | some q => (q : WithTop ℚ)
  | none => ⊤

/-- The sort comparator of selectWinner (lines 26-34) as a boolean
"a may come before b" relation: comparator(a,b) ≤ 0. -/
def prodLe (a b : Product) : Bool :=
  if turnoverVal a ≠ turnoverVal b then decide (turnoverVal b < turnoverVal a)
  else decide (priceKey a ≤ priceKey b)

/-- Propositional form of the comparator relation. -/
abbrev prodR (a b : Product) : Prop := prodLe a b = true

/-- The order the spec describes: turnover descending, ties broken by price
ascending with missing price sorting last. -/
def specLe (a b : Product) : Prop :=
  turnoverVal b < turnoverVal a ∨
    (turnoverVal a = turnoverVal b ∧ priceKey a ≤ priceKey b)

/-- Explicit availability test: p.isAvailable === true (line 36). -/
def availExplicit (p : Product) : Bool := p.isAvailable == some true

/-- selectWinner (product-normalizer.service.ts lines 23-40): stable-sort by
the comparator, pick the first explicitly available candidate, else the head
of the sorted list (null only when the list is empty). -/
def selectWinner (products : List Product) : Option Product × List Product :=
  let parts := List.insertionSort prodR products
  let inStock := parts.filter availExplicit
  let selectedPart : Option Product :=
    match inStock with
    | p :: _ => some p
    | [] => parts.head?
  (selectedPart, parts)

/-- Alternatives as assembled by the webhook (routes/webhook.ts lines 404-406):
drop entries matching the winner on both ref and brandCode, keep the first 4. -/
def webhookAlternatives (selectedPart : Option Product)
    (partsSorted : List Product) : List Product :=
  (partsSorted.filter (fun p =>
    match selectedPart with
    | some w => decide (p.ref ≠ w.ref) || decide (p.brandCode ≠ w.brandCode)
    | none => true)).take 4

/-! ### CatalogMatcher (src/services/catalog.service.ts) -/

/-- Catalog row as cached in memory (catalog.service.ts lines 5-9). -/
structure CatalogRow where
  id : ℤ
  canonical_name : String
  emb : List ℝ

/-- Part match produced by matchCanonicalByEmbedding (lines 94-98). -/
structure PartMatch where
  id : ℤ
  canonical_name : String
  score : ℝ

/-- dot (catalog.service.ts lines 19-23): pairwise product sum; JS loops over
a.length, reading b out of range would give NaN, so lists are zipped. -/
noncomputable def dot (a b : List ℝ) : ℝ :=
  (List.zipWith (fun x y => x * y) a b).sum

/-- norm (lines 24-26). -/
noncomputable def norm (a : List ℝ) : ℝ := Real.sqrt (dot a a)

/-- cosineSim (lines 27-30): denom ? dot(a,b)/denom : 0 — exactly 0 when the
denominator is 0, so no division by zero occurs. -/
noncomputable def cosineSim (a b : List ℝ) : ℝ :=
  if norm a * norm b = 0 then 0 else dot a b / (norm a * norm b)

/-- The mapped (unsorted) score list of matchCanonicalByEmbedding
(lines 93-98), in catalog order. -/
noncomputable def scoredEntries (catalog : List CatalogRow) (qEmb : List ℝ) :
    List PartMatch :=
  catalog.map (fun r =>
    { id := r.id, canonical_name := r.canonical_name, score := cosineSim qEmb r.emb })

/-- The sort comparator (a,b) => b.score - a.score (line 99) as the relation
"a may come before b": comparator(a,b) ≤ 0, i.e. b.score ≤ a.score. -/
abbrev scoreRel (a b : PartMatch) : Prop := b.score ≤ a.score

/-- matchCanonicalByEmbedding (catalog.service.ts lines 90-101): score every
cached row, sort by score descending (stable), slice(0, topK). -/
noncomputable def matchCanonicalByEmbedding (catalog : List CatalogRow)
    (qEmb : List ℝ) (topK : ℕ) : List PartMatch :=
  ((scoredEntries catalog qEmb).insertionSort scoreRel).take topK

/-! ### Session model and decision assembly (src/routes/webhook.ts) -/

/-- Message roles stored in a session (webhook.ts line 34). -/
inductive Role where
  | user
  | assistant
deriving DecidableEq, Repr

/-- Session message (webhook.ts line 35). -/
structure SessionMsg where
  role : Role
  content : String
  ts : ℕ
deriving DecidableEq, Repr

/-- Vehicle list entry inside the directory response (vehicle section of
aimotive.client.ts: data?.vehicles?.[0]?.id ?? ...?.vehicleId). -/
structure VehicleEntry where
  id : Option ℤ
  vehicleId : Option ℤ
deriving DecidableEq, Repr

/-- Directory lookup response (searchVehicleByPlate result shape). -/
structure VehicleData where
  plate : Option String
  vin : Option String
  brand : Option String
  model : Option String
  fuel : Option String
  registrationDate : Option String
  vehicles : List VehicleEntry
deriving DecidableEq, Repr

/-- Cached vehicle record stored in the session (webhook.ts lines 37-50 and
the assignment in maybeCacheVehicleFromText). -/
structure VehicleCache where
  plate : String
  vin : Option String
  brand : Option String
  model : Option String
  fuel : Option String
  registrationDate : Option String
  vehicles : List VehicleEntry
  vehicleId : Option ℤ
  cachedAt : ℕ
deriving DecidableEq, Repr

/-- Cached part-match block (webhook.ts lines 62-67); the constant source tag
"embedding" is omitted, and the source field named matches is called matchList
here because matches is a reserved word in Lean. -/
structure PartCache where
  matchList : List PartMatch
  cachedAt : ℕ
  textSample : String

/-- Session record (webhook.ts lines 57-71). -/
structure SessionState where
  messages : List SessionMsg
  vehicle : Option VehicleCache
  partMatches : Option PartCache
  selectedProduct : Option Product
  productAlternatives : List Product

/-- Configured defaults (webhook.ts lines 73-78). -/
def MAX_MESSAGES : ℕ := 12

/-- Default prompt context window (webhook.ts line 75). -/
def CONTEXT_WINDOW : ℕ := 10

/-- Default catalog match threshold (webhook.ts line 77). -/
noncomputable def MATCH_THRESHOLD : ℝ := 82 / 100

/-- Default top-K for catalog matching (webhook.ts line 78). -/
def MATCH_TOPK : ℕ := 5

/-- Vehicle summary placed in the decision (webhook.ts lines 474-482). -/
structure VehicleSummary where
  plate : String
  brand : Option String
  model : Option String
  fuel : Option String
  vin : Option String

/-- DecisionContext handed to the reply generator (ai.reply.ts lines 137-170,
assembled in webhook.ts lines 468-489). -/
structure Decision where
  part : Option PartMatch
  vehicle : Option VehicleSummary
  selectedProduct : Option Product
  alternatives : Option (List Product)
  askOneClarifyingQuestion : Bool

/-- Best part match of a session: session.partMatches?.matches?.[0]
(webhook.ts line 468). -/
def bestMatchOf (s : SessionState) : Option PartMatch :=
  s.partMatches.bind (fun pc => pc.matchList.head?)

/-- Decision assembly (webhook.ts lines 468-489).  The clarification flag is
!hasSelected && Boolean(best && best.score < MATCH_THRESHOLD). -/
noncomputable def assembleDecision (threshold : ℝ) (s : SessionState) : Decision :=
  let best := bestMatchOf s
  let hasSelected := s.selectedProduct.isSome
  { part := best
  , vehicle := s.vehicle.map (fun v =>
      { plate := v.plate, brand := v.brand, model := v.model
      , fuel := v.fuel, vin := v.vin })
  , selectedProduct := s.selectedProduct
  , alternatives :=
      if s.productAlternatives.isEmpty then none else some s.productAlternatives
  , askOneClarifyingQuestion :=
      !hasSelected &&
        (match best with
         | some b => decide (b.score < threshold)
         | none => false) }

/-! ### Message retention (webhook.ts lines 458-459 and 510-511) -/

/-- JS arr.slice(-n) for n ≥ 1: the most recent n elements. -/
def jsSliceLast (n : ℕ) (l : List α) : List α := l.drop (l.length - n)

/-- Append one message, then truncate to the most recent maxMsgs
(session.messages.push(...); session.messages.slice(-MAX_MESSAGES)). -/
def appendCapped (maxMsgs : ℕ) (msgs : List SessionMsg) (m : SessionMsg) :
    List SessionMsg :=
  jsSliceLast maxMsgs (msgs ++ [m])

/-- One processed delivery, as it affects the message list: append the user
message and truncate (lines 458-459), build the prompt context from the last
ctxWin messages (lines 464-466, returned second; it never feeds back into the
stored list), append the assistant message and truncate (lines 510-511). -/
def processTurn (maxMsgs ctxWin : ℕ) (msgs : List SessionMsg)
    (u a : SessionMsg) : List SessionMsg × List SessionMsg :=
  let afterUser := appendCapped maxMsgs msgs u
  let recent := jsSliceLast ctxWin afterUser
  let afterAssistant := appendCapped maxMsgs afterUser a
  (afterAssistant, recent)

/-- The stored message list after a sequence of processed deliveries. -/
def processTurns (maxMsgs ctxWin : ℕ) (init : List SessionMsg)
    (turns : List (SessionMsg × SessionMsg)) : List SessionMsg :=
  turns.foldl (fun msgs t => (processTurn maxMsgs ctxWin msgs t.1 t.2).1) init

/-! ### VehicleResolver (vehicle section of the aimotive client pack)

The plate pattern PLATE_RE is
  (four digits, optional spaces, three letters) OR
  (one-or-two letters, optional spaces, four digits, optional spaces,
   zero-to-two letters),
wrapped in word boundaries, with the case-insensitive flag.  The matcher below
implements exactly this pattern over character lists with JS regex semantics:
leftmost match, first alternative preferred, greedy quantifiers with
backtracking against the trailing word boundary. -/

/-- JS regex digit class. -/
def isDigitC (c : Char) : Bool := decide ('0' ≤ c) && decide (c ≤ '9')

/-- ASCII uppercase letter. -/
def isUpperC (c : Char) : Bool := decide ('A' ≤ c) && decide (c ≤ 'Z')

/-- ASCII lowercase letter. -/
def isLowerC (c : Char) : Bool := decide ('a' ≤ c) && decide (c ≤ 'z')

/-- The character class A-Z under the case-insensitive flag: ASCII letters
only; accented (non-ASCII) letters are not in the class. -/
def isLetterC (c : Char) : Bool := isUpperC c || isLowerC c

/-- JS whitespace class (ASCII part; the exotic Unicode spaces never occur in
the texts considered here). -/
def isSpaceC (c : Char) : Bool :=
  decide (c = ' ') || decide (c = '\t') || decide (c = '\n') ||
    decide (c = '\r') || decide (c = '\x0b') || decide (c = '\x0c')

/-- JS word character, for word boundaries. -/
def isWordC (c : Char) : Bool := isDigitC c || isLetterC c || decide (c = '_')

/-- Wordness of an optional character (none = outside the string). -/
def isWordOpt : Option Char → Bool
  | some c => isWordC c
  | none => false

/-- Word boundary between two adjacent positions. -/
def boundaryB (prev next : Option Char) : Bool := isWordOpt prev != isWordOpt next

/-- Match exactly n characters of class p; returns the consumed characters and
the remainder. -/
def exactly (p : Char → Bool) : ℕ → List Char → Option (List Char × List Char)
  | 0, cs => some ([], cs)
  | _ + 1, [] => none
  | n + 1, c :: cs =>
      if p c then (exactly p n cs).map (fun pr => (c :: pr.1, pr.2)) else none

/-- Greedy candidates for a bounded letter quantifier (up to maxN letters),
longest first, as the backtracking engine tries them. -/
def lettersUpTo (maxN : ℕ) (cs : List Char) : List (List Char × List Char) :=
  let avail := min (cs.takeWhile isLetterC).length maxN
  ((List.range (avail + 1)).reverse).map (fun k => (cs.take k, cs.drop k))

/-- Greedy candidates for the quantifier of one-to-two letters. -/
def lettersOneTwo (cs : List Char) : List (List Char × List Char) :=
  (lettersUpTo 2 cs).filter (fun pr => decide (pr.1.length ≠ 0))

/-- Greedy candidates for a star of whitespace, longest first. -/
def spaceSplits (cs : List Char) : List (List Char × List Char) :=
  let s := cs.takeWhile isSpaceC
  let r := cs.dropWhile isSpaceC
  ((List.range (s.length + 1)).reverse).map (fun k => (s.take k, s.drop k ++ r))

/-- First alternative of PLATE_RE: four digits, optional spaces, three
letters.  Both stars are followed by a mandatory class disjoint from
whitespace, so maximal munch needs no backtracking here. -/
def tryAlt1 (cs : List Char) : Option (List Char × List Char) :=
  match exactly isDigitC 4 cs with
  | none => none
  | some dr =>
    let s := dr.2.takeWhile isSpaceC
    let r2 := dr.2.dropWhile isSpaceC
    match exactly isLetterC 3 r2 with
    | none => none
    | some lr => some (dr.1 ++ (s ++ lr.1), lr.2)

/-- Backtracking candidates of the second alternative of PLATE_RE: one-or-two
letters, optional spaces, four digits, optional spaces, zero-to-two letters.
The list is in the order the JS engine tries them (rightmost quantifier
backtracks first). -/
def alt2Candidates (cs : List Char) : List (List Char × List Char) :=
  (lettersOneTwo cs).flatMap (fun pre =>
    let s1 := pre.2.takeWhile isSpaceC
    let r2 := pre.2.dropWhile isSpaceC
    match exactly isDigitC 4 r2 with
    | none => []
    | some dr =>
      (spaceSplits dr.2).flatMap (fun sp =>
        (lettersUpTo 2 sp.2).map (fun tl =>
          (pre.1 ++ (s1 ++ (dr.1 ++ (sp.1 ++ tl.1))), tl.2))))

/-- All candidates of the alternation, first alternative preferred. -/
def altCandidates (cs : List Char) : List (List Char × List Char) :=
  (match tryAlt1 cs with
   | some pr => [pr]
   | none => []) ++ alt2Candidates cs

/-- First f-success in a candidate list (the backtracking order). -/
def firstSome (f : α → Option β) : List α → Option β
  | [] => none
  | x :: xs =>
    match f x with
    | some b => some b
    | none => firstSome f xs

/-- Try the whole pattern at the current position: leading word boundary,
then the first alternation candidate whose trailing word boundary holds. -/
def matchHere (prev : Option Char) (cs : List Char) : Option (List Char) :=
  if boundaryB prev cs.head? then
    firstSome (fun pr =>
      match pr.1.getLast? with
      | some lastC => if boundaryB (some lastC) pr.2.head? then some pr.1 else none
      | none => none) (altCandidates cs)
  else none

/-- Leftmost match: try every start position from the left, tracking the
previous character for the leading word boundary. -/
def scanMatch : Option Char → List Char → Option (List Char)
  | prev, [] => matchHere prev []
  | prev, c :: rest =>
    match matchHere prev (c :: rest) with
    | some m => some m
    | none => scanMatch (some c) rest

/-- cleanPlate: p.toUpperCase().replace of whitespace runs by nothing.  The
matched text is ASCII (digits, ASCII letters, whitespace), where JS
toUpperCase agrees with the ASCII case mapping Char.toUpper. -/
def cleanPlate (m : List Char) : List Char :=
  (m.map Char.toUpper).filter (fun c => !isSpaceC c)

/-- text.match(PLATE_RE) followed by cleanPlate(m[0]). -/
def extractPlate (text : String) : Option String :=
  (scanMatch none text.data).map (fun m => String.mk (cleanPlate m))

/-- Raw shape of the first plate grammar: four digits, whitespace, three
letters (case-insensitive classes). -/
def rawShape1 (m : List Char) : Prop :=
  ∃ d s l, m = d ++ (s ++ l) ∧
    d.length = 4 ∧ (∀ c ∈ d, isDigitC c = true) ∧
    (∀ c ∈ s, isSpaceC c = true) ∧
    l.length = 3 ∧ (∀ c ∈ l, isLetterC c = true)

/-- Raw shape of the second plate grammar: one-or-two letters, whitespace,
four digits, whitespace, zero-to-two letters. -/
def rawShape2 (m : List Char) : Prop :=
  ∃ l1 s1 d s2 l2, m = l1 ++ (s1 ++ (d ++ (s2 ++ l2))) ∧
    1 ≤ l1.length ∧ l1.length ≤ 2 ∧ (∀ c ∈ l1, isLetterC c = true) ∧
    (∀ c ∈ s1, isSpaceC c = true) ∧
    d.length = 4 ∧ (∀ c ∈ d, isDigitC c = true) ∧
    (∀ c ∈ s2, isSpaceC c = true) ∧
    l2.length ≤ 2 ∧ (∀ c ∈ l2, isLetterC c = true)

/-- A raw match of PLATE_RE has one of the two grammar shapes. -/
def rawPlateShape (m : List Char) : Prop := rawShape1 m ∨ rawShape2 m

/-- maybeCacheVehicleFromText (vehicle section, lines 101-141 of the aimotive
client pack): extract a plate from the text; no-op when there is none or when
the session already caches the same plate; otherwise call the external lookup,
and on success cache the vehicle record.  A lookup failure is caught and the
session is returned unchanged.  The external call and the wall clock are
passed in as parameters. -/
def maybeCacheVehicleFromText (lookup : String → Except Unit VehicleData)
    (now : ℕ) (text : String) (session : SessionState) : SessionState :=
  match extractPlate text with
  | none => session
  | some plate =>
    if session.vehicle.map (fun v => v.plate) = some plate then session
    else
      match lookup plate with
      | Except.error _ => session
      | Except.ok data =>
        let v0 := data.vehicles.head?
        let vehicleId : Option ℤ :=
          match v0 with
          | some v => (v.id).orElse (fun _ => v.vehicleId)
          | none => none
        { session with
            vehicle := some
              { plate := data.plate.getD plate
              , vin := data.vin
              , brand := data.brand
              , model := data.model
              , fuel := data.fuel
              , registrationDate := data.registrationDate
              , vehicles := data.vehicles
              , vehicleId := vehicleId
              , cachedAt := now } }

/-! ### PayloadNormalizer (webhook.ts lines 141-294)

JavaScript values on the wire are modelled by JsValue.  Object fields are an
association list in insertion order; the payloads considered here have
distinct keys, so first-key lookup agrees with JS property access. -/

/-- Wire-level JavaScript value. -/
inductive JsValue where
  | null : JsValue
  | bool : Bool → JsValue
  | num : ℚ → JsValue
  | str : String → JsValue
  | arr : List JsValue → JsValue
  | obj : List (String × JsValue) → JsValue

/-- JS truthiness. -/
def jsTruthy : JsValue → Bool
  | JsValue.null => false
  | JsValue.bool b => b
  | JsValue.num q => decide (q ≠ 0)
  | JsValue.str s => decide (s ≠ "")
  | JsValue.arr _ => true
  | JsValue.obj _ => true

/-- Property access o.k: some value when o is an object with field k,
none (undefined) otherwise. -/
def getField : JsValue → String → Option JsValue
  | JsValue.obj fields, k => (fields.find? (fun kv => kv.1 == k)).map (fun kv => kv.2)
  | _, _ => none

/-- Optional chaining step o?.k: null and undefined both short-circuit. -/
def optChain (o : Option JsValue) (k : String) : Option JsValue :=
  match o with
  | none => none
  | some JsValue.null => none
  | some v => getField v k

/-- JS String(v) for the values reachable here.  Number and array rendering
are approximated (the inbound fields read as strings are strings); an object
renders as in JS. -/
def jsStringOf : JsValue → String
  | JsValue.null => "null"
  | JsValue.bool true => "true"
  | JsValue.bool false => "false"
  | JsValue.str s => s
  | JsValue.num q => if q.den = 1 then toString q.num else toString q
  | JsValue.arr _ => ""
  | JsValue.obj _ => "[object Object]"

/-- The idiom String(x || ""): empty for a missing or falsy value. -/
def strOrEmpty (v : Option JsValue) : String :=
  match v with
  | none => ""
  | some x => if jsTruthy x then jsStringOf x else ""

/-- The opening-brace character (written by code point to keep brace
characters out of the source text). -/
def lbrace : Char := Char.ofNat 123

/-- The closing-brace character. -/
def rbrace : Char := Char.ofNat 125

/-- JSON whitespace. -/
def isJsonWs (c : Char) : Bool :=
  decide (c = ' ') || decide (c = '\t') || decide (c = '\n') || decide (c = '\r')

/-- Skip JSON whitespace. -/
def skipWs (cs : List Char) : List Char := cs.dropWhile isJsonWs

/-- Body of a JSON string literal after the opening quote, with the common
escapes; returns the decoded characters and the remainder after the closing
quote. -/
def parseStringBody : List Char → Option (List Char × List Char)
  | [] => none
  | '"' :: rest => some ([], rest)
  | '\\' :: e :: rest =>
    let dec : Option Char :=
      match e with
      | '"' => some '"'
      | '\\' => some '\\'
      | '/' => some '/'
      | 'n' => some '\n'
      | 't' => some '\t'
      | 'r' => some '\r'
      | _ => none
    match dec with
    | none => none
    | some d => (parseStringBody rest).map (fun pr => (d :: pr.1, pr.2))
  | c :: rest => (parseStringBody rest).map (fun pr => (c :: pr.1, pr.2))

/-- Integer JSON number literal (the payloads used here carry no fractional
numbers; a fractional literal fails the parse). -/
def parseNumLit (cs : List Char) : Option (JsValue × List Char) :=
  let core : List Char → Option (JsValue × List Char) := fun ds =>
    let digits := ds.takeWhile isDigitC
    let rest := ds.dropWhile isDigitC
    if digits.isEmpty then none
    else
      let n : ℕ := digits.foldl (fun acc c => 10 * acc + (c.toNat - 48)) 0
      match rest with
      | '.' :: _ => none
      | 'e' :: _ => none
      | 'E' :: _ => none
      | _ => some (JsValue.num (n : ℚ), rest)
  match cs with
  | '-' :: ds =>
    (core ds).map (fun pr =>
      match pr.1 with
      | JsValue.num q => (JsValue.num (-q), pr.2)
      | v => (v, pr.2))
  | ds => core ds

mutual

/-- Fuel-indexed JSON value parser (models JSON.parse on the payloads used
here: objects, arrays, strings, integers, true/false/null). -/
def parseVal : ℕ → List Char → Option (JsValue × List Char)
  | 0, _ => none
  | n + 1, cs =>
    match skipWs cs with
    | 't' :: 'r' :: 'u' :: 'e' :: rest => some (JsValue.bool true, rest)
    | 'f' :: 'a' :: 'l' :: 's' :: 'e' :: rest => some (JsValue.bool false, rest)
    | 'n' :: 'u' :: 'l' :: 'l' :: rest => some (JsValue.null, rest)
    | '"' :: rest =>
      (parseStringBody rest).map (fun pr => (JsValue.str (String.mk pr.1), pr.2))
    | '[' :: rest =>
      (match skipWs rest with
       | ']' :: rest2 => some (JsValue.arr [], rest2)
       | _ => parseItems n rest [])
    | c :: rest =>
      if c = lbrace then
        (match skipWs rest with
         | c2 :: rest2 => if c2 = rbrace then some (JsValue.obj [], rest2)
                          else parseMembers n rest []
         | [] => none)
      else parseNumLit (c :: rest)
    | [] => none

/-- Object members after the opening brace. -/
def parseMembers : ℕ → List Char → List (String × JsValue) →
    Option (JsValue × List Char)
  | 0, _, _ => none
  | n + 1, cs, acc =>
    match skipWs cs with
    | '"' :: rest =>
      (match parseStringBody rest with
       | none => none
       | some kr =>
         match skipWs kr.2 with
         | ':' :: r2 =>
           (match parseVal n r2 with
            | none => none
            | some vr =>
              match skipWs vr.2 with
              | ',' :: r4 => parseMembers n r4 (acc ++ [(String.mk kr.1, vr.1)])
              | c :: r4 =>
                if c = rbrace then
                  some (JsValue.obj (acc ++ [(String.mk kr.1, vr.1)]), r4)
                else none
              | [] => none)
         | _ => none)
    | _ => none

/-- Array items after the opening bracket. -/
def parseItems : ℕ → List Char → List JsValue → Option (JsValue × List Char)
  | 0, _, _ => none
  | n + 1, cs, acc =>
    match parseVal n cs with
    | none => none
    | some vr =>
      match skipWs vr.2 with
      | ',' :: r2 => parseItems n r2 (acc ++ [vr.1])
      | ']' :: r2 => some (JsValue.arr (acc ++ [vr.1]), r2)
      | _ => none

end

/-- JSON.parse: parse one value and require only whitespace after it.  The
fuel bound exceeds the nesting the input length allows. -/
def jsonParse (s : String) : Option JsValue :=
  match parseVal (s.length + 1) s.data with
  | some vr => if skipWs vr.2 = [] then some vr.1 else none
  | none => none

/-- Key starts with an opening brace (webhook.ts line 162,
k.startsWith of the brace). -/
def startsWithBrace (k : String) : Bool :=
  match k.data with
  | c :: _ => c = lbrace
  | [] => false

/-- Key starts with "X-Amz-" (webhook.ts line 163). -/
def startsWithAmz (k : String) : Bool :=
  List.isPrefixOf "X-Amz-".data k.data

/-- Message type of a normalized inbound event. -/
inductive MsgType where
  | text
  | audio
  | image
deriving DecidableEq, Repr

/-- NormalizedInbound (webhook.ts lines 22-31); the diagnostic debug field is
omitted, and the source field named instance is called instanceId here because
instance is a reserved word in Lean. -/
structure NormalizedInbound where
  instanceId : String
  conversation : String
  type : MsgType
  text : Option String
  mediaUrl : Option String
  caption : Option String
  duration : Option ℕ
deriving DecidableEq, Repr

/-- The b binding of normalizeInbound (webhook.ts line 158):
(reqBody && (reqBody.body ?? reqBody)) || the empty object. -/
def normBodyPick (reqBody : JsValue) : JsValue :=
  if !jsTruthy reqBody then JsValue.obj []
  else
    let c :=
      match getField reqBody "body" with
      | some JsValue.null => reqBody
      | some v => v
      | none => reqBody
    if jsTruthy c then c else JsValue.obj []

/-- normalizeInbound (webhook.ts lines 157-294).  The media route (lines
182-291, taken only when a brace-key exists together with an X-Amz- sibling
key) is abstracted as the mediaRoute parameter, applied to b and the brace
key; the inputs studied here never reach it.  The text route parses the brace
key as JSON and reads instance, conversation and message.data.body; a body
that is not an object, or has no brace-prefixed key, falls through to null. -/
def normalizeInbound (mediaRoute : JsValue → String → Option NormalizedInbound)
    (reqBody : JsValue) : Option NormalizedInbound :=
  let b := normBodyPick reqBody
  match b with
  | JsValue.obj fields =>
    let keys := fields.map (fun kv => kv.1)
    let preKey := (keys.find? startsWithBrace).getD ""
    let hasAmz := keys.any startsWithAmz
    if preKey ≠ "" ∧ ¬(hasAmz = true) then
      match jsonParse preKey with
      | none => none
      | some root =>
        let inst := strOrEmpty (getField root "instance")
        let conv := strOrEmpty (getField root "conversation")
        let txt := strOrEmpty (optChain (optChain (getField root "message") "data") "body")
        if inst = "" ∨ conv = "" then none
        else some
          { instanceId := inst, conversation := conv, type := MsgType.text
          , text := some txt, mediaUrl := none, caption := none, duration := none }
    else if preKey ≠ "" ∧ hasAmz = true then mediaRoute b preKey
    else none
  | _ => none

/-- Stub for the media route, used to state concrete evaluations; the inputs
below never reach the media branch, so any function would do. -/
def mediaRouteStub : JsValue → String → Option NormalizedInbound :=
  fun _ _ => none

/-- The JSON text of one logical text event (tenant id, conversation id,
message body "hola"), used as the brace key in encoding (b). -/
def evtJsonText : String :=
  "\x7b\"instance\":\"11111111-2222-3333-4444-555555555555\",\"conversation\":\"34600111222:55@s.whatsapp.net\",\"message\":\x7b\"data\":\x7b\"body\":\"hola\"\x7d\x7d\x7d"

/-- Encoding (a): the same logical event as a direct object exposing the
three required top-level fields. -/
def evtDirectObj : JsValue :=
  JsValue.obj
    [ ("instance", JsValue.str "11111111-2222-3333-4444-555555555555")
    , ("conversation", JsValue.str "34600111222:55@s.whatsapp.net")
    , ("message", JsValue.obj
        [ ("data", JsValue.obj [("body", JsValue.str "hola")]) ]) ]

/-- Encoding (b): the event JSON serialized as an object key with empty
value (the forms-encoding artifact). -/
def evtJsonKey : JsValue := JsValue.obj [(evtJsonText, JsValue.str "")]

/-- Encoding (c): the event as a doubly-escaped JSON string with a leading
formula-escape prefix, wrapped in a body field. -/
def evtEscapedStr : JsValue :=
  JsValue.obj
    [ ("body", JsValue.str
        ("=\x7b\\\"instance\\\":\\\"11111111-2222-3333-4444-555555555555\\\",\\\"conversation\\\":\\\"34600111222:55@s.whatsapp.net\\\",\\\"message\\\":\x7b\\\"data\\\":\x7b\\\"body\\\":\\\"hola\\\"\x7d\x7d\x7d")) ]

/-- The InboundEvent the JSON-as-key encoding normalizes to. -/
def evtExpected : NormalizedInbound :=
  { instanceId := "11111111-2222-3333-4444-555555555555"
  , conversation := "34600111222:55@s.whatsapp.net"
  , type := MsgType.text
  , text := some "hola"
  , mediaUrl := none
  , caption := none
  , duration := none }

/-! ### Concrete sample data used by witnesses and counterexamples -/

/-- First product of the spec winner-selection example: turnover 9,
price 100, not available. -/
def prodA : Product :=
  { ref := "R1", commercialRef := none, name := "P1", brandCode := some "B1"
  , brandName := none, isAvailable := some false, price := some 100
  , taxes := none, discount := none, vat := none, turnover := some 9
  , warehouses := [] }

/-- Second product of the example: turnover 5, price 10, not available. -/
def prodB : Product :=
  { ref := "R2", commercialRef := none, name := "P2", brandCode := some "B1"
  , brandName := none, isAvailable := some false, price := some 10
  , taxes := none, discount := none, vat := none, turnover := some 5
  , warehouses := [] }

/-- Third product of the example: turnover 5, price 8, available. -/
def prodC : Product :=
  { ref := "R3", commercialRef := none, name := "P3", brandCode := some "B1"
  , brandName := none, isAvailable := some true, price := some 8
  , taxes := none, discount := none, vat := none, turnover := some 5
  , warehouses := [] }

/-- Sample user message. -/
def sampleUser : SessionMsg := { role := Role.user, content := "hola", ts := 0 }

/-- Sample assistant message. -/
def sampleAssistant : SessionMsg :=
  { role := Role.assistant, content := "ok", ts := 1 }

/-- Fresh empty session, as loadSession returns on a cache miss. -/
def emptySession : SessionState :=
  { messages := [], vehicle := none, partMatches := none
  , selectedProduct := none, productAlternatives := [] }

/-- External plate lookup that always fails (a thrown error at the call
site). -/
def lookupFail : String → Except Unit VehicleData := fun _ => Except.error ()

end Aura

namespace Aura

/-! ## Helper lemmas -/

/-- The head of a filtered list is the first element satisfying the
predicate. -/
theorem head?_filter_eq_find? (p : α → Bool) :
    ∀ l : List α, (l.filter p).head? = l.find? p := by
  intro l
  induction l with
  | nil => rfl
  | cons a t ih =>
    cases h : p a
    · rw [List.find?_cons_of_neg _ (by simp [h])]
      simp [List.filter_cons, h, ih]
    · rw [List.find?_cons_of_pos _ h]
      simp [List.filter_cons, h]

/-- Taking the most recent n elements yields at most n elements. -/
theorem length_jsSliceLast (n : ℕ) (l : List α) : (jsSliceLast n l).length ≤ n := by
  simp only [jsSliceLast, List.length_drop]
  omega

/-- Appending one message under the cap keeps the list within the cap. -/
theorem length_appendCapped (maxMsgs : ℕ) (msgs : List SessionMsg)
    (m : SessionMsg) : (appendCapped maxMsgs msgs m).length ≤ maxMsgs :=
  length_jsSliceLast maxMsgs (msgs ++ [m])

/-- After at least one processed delivery the stored list is within the cap,
whatever state it started from. -/
theorem length_processTurns_le (maxMsgs ctxWin : ℕ) :
    ∀ (turns : List (SessionMsg × SessionMsg)) (init : List SessionMsg),
      turns ≠ [] → (processTurns maxMsgs ctxWin init turns).length ≤ maxMsgs := by
  intro turns
  induction turns with
  | nil => intro init h; exact absurd rfl h
  | cons t ts ih =>
    intro init _
    cases ts with
    | nil =>
      exact length_appendCapped maxMsgs (appendCapped maxMsgs init t.1) t.2
    | cons t2 ts2 =>
      exact ih (processTurn maxMsgs ctxWin init t.1 t.2).1 (by simp)

/-- The stored message list does not depend on the prompt context window. -/
theorem processTurns_ctx_indep (maxMsgs w w2 : ℕ) (init : List SessionMsg)
    (turns : List (SessionMsg × SessionMsg)) :
    processTurns maxMsgs w init turns = processTurns maxMsgs w2 init turns := rfl

/-! ## Claims -/

/-- Claim C10: for every family id — including the six registered special
ids — and every product list, normalizeByFamily returns the product list
unchanged as primary and an empty related list; no per-family rule alters,
reorders or removes products. -/
theorem normalizeByFamily_passthrough (familyId : Option ℤ)
    (products : List Product) (userText : String) :
    normalizeByFamily familyId products userText = (products, []) := by
  simp [normalizeByFamily]

/-- Claim C5, counterexample to the claim as stated: on the spec example list
the sorted order is not the input order — the two turnover-5 products are
reordered price-ascending. -/
theorem selectWinner_example_order_changed :
    (selectWinner [prodA, prodB, prodC]).2 ≠ [prodA, prodB, prodC] := by decide

/-- Claim C5, amended: on the input [turnover 9/price 100/unavailable,
turnover 5/price 10/unavailable, turnover 5/price 8/available] the sorted
order is first, third, second (price ascending within the turnover tie); the
winner is the third input product (the only explicitly available one, price
8); the alternatives are the other two products in sorted order. -/
theorem selectWinner_example_spec :
    (selectWinner [prodA, prodB, prodC]).1 = some prodC ∧
    (selectWinner [prodA, prodB, prodC]).2 = [prodA, prodC, prodB] ∧
    webhookAlternatives (selectWinner [prodA, prodB, prodC]).1
      (selectWinner [prodA, prodB, prodC]).2 = [prodA, prodB] := by decide

set_option maxRecDepth 100000 in
/-- Claim C3, counterexample to the claim as stated: the JSON-as-key encoding
of the event normalizes to the event, but the direct-object and escaped-string
encodings of the same logical event normalize to null, so the three encodings
do not produce identical InboundEvent fields. -/
theorem normalizeInbound_encodings_differ :
    normalizeInbound mediaRouteStub evtJsonKey = some evtExpected ∧
    normalizeInbound mediaRouteStub evtDirectObj = none ∧
    normalizeInbound mediaRouteStub evtEscapedStr = none ∧
    normalizeInbound mediaRouteStub evtDirectObj ≠
      normalizeInbound mediaRouteStub evtJsonKey := by
  refine ⟨rfl, rfl, rfl, ?_⟩
  intro hcontra
  rw [show normalizeInbound mediaRouteStub evtDirectObj = none from rfl,
    show normalizeInbound mediaRouteStub evtJsonKey = some evtExpected from rfl]
    at hcontra
  exact Option.noConfusion hcontra

set_option maxRecDepth 100000 in
/-- Claim C3, amended: normalizeInbound accepts only the JSON-as-key encoding
of the event (producing its InboundEvent fields); the direct-object and the
doubly-escaped-string encodings are rejected with null, whatever the media
route does (it is never reached by these inputs). -/
theorem normalizeInbound_jsonKey_only
    (mediaRoute : JsValue → String → Option NormalizedInbound) :
    normalizeInbound mediaRoute evtJsonKey = some evtExpected ∧
    normalizeInbound mediaRoute evtDirectObj = none ∧
    normalizeInbound mediaRoute evtEscapedStr = none :=
  ⟨rfl, rfl, rfl⟩

/-- Claim C1: the assembled decision asks one clarifying question exactly
when no product is selected for this turn, a best match exists, and the best
match's score is strictly below the threshold; in particular a score exactly
equal to the threshold does not trigger clarification, the strict inequality
failing there. -/
theorem askOneClarifyingQuestion_iff (t : ℝ) (s : SessionState) :
    (assembleDecision t s).askOneClarifyingQuestion = true ↔
      (s.selectedProduct = none ∧ ∃ m, bestMatchOf s = some m ∧ m.score < t) := by
  cases hb : bestMatchOf s with
  | none => cases hsel : s.selectedProduct <;> simp [assembleDecision, hb, hsel]
  | some m => cases hsel : s.selectedProduct <;> simp [assembleDecision, hb, hsel]

/-- Claim C8: after processing any inbound delivery (any number of processed
turns, each appending a user and an assistant message and truncating after
each append), the stored message list never exceeds the configured maximum,
and the stored list is independent of the smaller context window used only to
build the prompt. -/
theorem session_messages_bounded (maxMsgs ctxWin : ℕ) (init : List SessionMsg)
    (turns : List (SessionMsg × SessionMsg)) (hpos : 0 < maxMsgs)
    (hne : turns ≠ []) :
    (processTurns maxMsgs ctxWin init turns).length ≤ maxMsgs ∧
    ∀ ctxWin2, processTurns maxMsgs ctxWin init turns =
      processTurns maxMsgs ctxWin2 init turns :=
  ⟨length_processTurns_le maxMsgs ctxWin turns init hne,
   fun ctxWin2 => processTurns_ctx_indep maxMsgs ctxWin ctxWin2 init turns⟩

/-- Witness for claim C8 at the default maximum 12 and window 10, on one
concrete delivery. -/
theorem session_messages_bounded_witness :
    0 < 12 ∧ ([(sampleUser, sampleAssistant)] ≠
      ([] : List (SessionMsg × SessionMsg))) ∧
    (processTurns 12 10 [] [(sampleUser, sampleAssistant)]).length ≤ 12 :=
  ⟨by decide, by decide,
   (session_messages_bounded 12 10 [] [(sampleUser, sampleAssistant)]
      (by decide) (by decide)).1⟩

/-- Claim C9: when the external plate lookup fails (throws), the
maybeCacheVehicleFromText call returns normally and leaves the session
unchanged — in particular the vehicle field stays unset if it was unset
before. -/
theorem maybeCacheVehicleFromText_error_unchanged
    (lookup : String → Except Unit VehicleData) (now : ℕ) (text : String)
    (session : SessionState)
    (h : ∀ p, ∃ e, lookup p = Except.error e) :
    maybeCacheVehicleFromText lookup now text session = session := by
  unfold maybeCacheVehicleFromText
  cases hp : extractPlate text with
  | none => rfl
  | some plate =>
    obtain ⟨e, he⟩ := h plate
    by_cases hv : session.vehicle.map (fun v => v.plate) = some plate
    · simp [hv]
    · simp [hv, he]

/-- Witness for claim C9: a failing lookup on a text containing a plate
leaves the empty session (with its vehicle unset) unchanged. -/
theorem maybeCacheVehicleFromText_error_unchanged_witness :
    maybeCacheVehicleFromText lookupFail 0 "1234 BCD" emptySession =
      emptySession :=
  maybeCacheVehicleFromText_error_unchanged lookupFail 0 "1234 BCD"
    emptySession (fun _ => ⟨(), rfl⟩)

/-- The comparator relation coincides with the order the spec describes. -/
theorem prodLe_eq_true_iff (a b : Product) : prodLe a b = true ↔ specLe a b := by
  unfold prodLe specLe
  by_cases h : turnoverVal a = turnoverVal b
  · simp [h]
  · simp [h]

/-- The spec order is transitive. -/
theorem specLe_trans (a b c : Product) (h1 : specLe a b) (h2 : specLe b c) :
    specLe a c := by
  rcases h1 with h1 | ⟨h1, h1p⟩ <;> rcases h2 with h2 | ⟨h2, h2p⟩
  · exact Or.inl (lt_trans h2 h1)
  · exact Or.inl (h2 ▸ h1)
  · exact Or.inl (by rw [h1]; exact h2)
  · exact Or.inr ⟨h1.trans h2, le_trans h1p h2p⟩

/-- The spec order is total. -/
theorem specLe_total (a b : Product) : specLe a b ∨ specLe b a := by
  rcases lt_trichotomy (turnoverVal a) (turnoverVal b) with h | h | h
  · exact Or.inr (Or.inl h)
  · rcases le_total (priceKey a) (priceKey b) with hp | hp
    · exact Or.inl (Or.inr ⟨h, hp⟩)
    · exact Or.inr (Or.inr ⟨h.symm, hp⟩)
  · exact Or.inl (Or.inl h)

/-- Claim C2: selectWinner stable-sorts all candidates by turnover descending
with ties broken by price ascending (missing price sorting last): the sorted
list carries that order pairwise and is a permutation of the input; the
winner is the first sorted candidate whose availability is explicitly true,
falling back to the head of the full sorted order when none is; hence on any
non-empty input the winner is non-null. -/
theorem selectWinner_spec (products : List Product) :
    ((selectWinner products).2).Pairwise specLe ∧
    ((selectWinner products).2).Perm products ∧
    (selectWinner products).1 =
      (((selectWinner products).2).find? availExplicit <|>
        ((selectWinner products).2).head?) ∧
    (products ≠ [] → ((selectWinner products).1).isSome = true) := by
  haveI instTot : IsTotal Product prodR :=
    ⟨fun a b => by
      rcases specLe_total a b with h | h
      · exact Or.inl ((prodLe_eq_true_iff a b).mpr h)
      · exact Or.inr ((prodLe_eq_true_iff b a).mpr h)⟩
  haveI instTrans : IsTrans Product prodR :=
    ⟨fun a b c h1 h2 => (prodLe_eq_true_iff a c).mpr
      (specLe_trans a b c ((prodLe_eq_true_iff a b).mp h1)
        ((prodLe_eq_true_iff b c).mp h2))⟩
  have h2eq : (selectWinner products).2 = List.insertionSort prodR products := rfl
  have hperm : (List.insertionSort prodR products).Perm products :=
    List.perm_insertionSort prodR products
  refine ⟨?_, ?_, ?_, ?_⟩
  · rw [h2eq]
    exact (List.sorted_insertionSort prodR products).imp
      (fun h => (prodLe_eq_true_iff _ _).mp h)
  · rw [h2eq]; exact hperm
  · rw [h2eq, ← head?_filter_eq_find?]
    show (match (List.insertionSort prodR products).filter availExplicit with
      | p :: _ => some p
      | [] => (List.insertionSort prodR products).head?) = _
    cases hfil : (List.insertionSort prodR products).filter availExplicit with
    | nil => simp
    | cons p rest => simp
  · intro hne
    have hsne : List.insertionSort prodR products ≠ [] := by
      intro hnil
      have h0 : ([] : List Product).Perm products := by rw [← hnil]; exact hperm
      exact hne h0.symm.eq_nil
    show (match (List.insertionSort prodR products).filter availExplicit with
      | p :: _ => some p
      | [] => (List.insertionSort prodR products).head?).isSome = true
    cases hfil : (List.insertionSort prodR products).filter availExplicit with
    | nil =>
      cases hs : List.insertionSort prodR products with
      | nil => exact absurd hs hsne
      | cons a l => simp
    | cons p rest => simp

/-- Witness for claim C2: the non-emptiness conclusion at a concrete
one-product list. -/
theorem selectWinner_spec_witness :
    ([prodC] ≠ ([] : List Product)) ∧
    ((selectWinner [prodC]).1).isSome = true :=
  ⟨by decide, (selectWinner_spec [prodC]).2.2.2 (by decide)⟩

/-- Unfolding of dot on cons cells. -/
theorem dot_cons (x y : ℝ) (a b : List ℝ) :
    dot (x :: a) (y :: b) = x * y + dot a b := by
  simp [dot]

/-- A self inner product is non-negative. -/
theorem dot_self_nonneg (v : List ℝ) : 0 ≤ dot v v := by
  induction v with
  | nil => simp [dot]
  | cons x t ih =>
    rw [dot_cons]
    exact add_nonneg (mul_self_nonneg x) ih

/-- A self inner product of a vector with a non-zero entry is positive. -/
theorem dot_self_pos (v : List ℝ) (x : ℝ) (hx : x ∈ v) (hx0 : x ≠ 0) :
    0 < dot v v := by
  induction v with
  | nil => cases hx
  | cons a t ih =>
    rw [dot_cons]
    rcases List.mem_cons.mp hx with rfl | hmem
    · exact add_pos_of_pos_of_nonneg (mul_self_pos.mpr hx0) (dot_self_nonneg t)
    · exact add_pos_of_nonneg_of_pos (mul_self_nonneg a) (ih hmem)

/-- The zero vector has norm 0. -/
theorem norm_replicate_zero (n : ℕ) : norm (List.replicate n (0 : ℝ)) = 0 := by
  have hdot : dot (List.replicate n (0 : ℝ)) (List.replicate n (0 : ℝ)) = 0 := by
    induction n with
    | zero => simp [dot]
    | succ k ih => rw [List.replicate_succ, dot_cons, ih]; ring
  rw [norm, hdot, Real.sqrt_zero]

/-- Claim C6: cosine similarity is dot(a,b)/(‖a‖·‖b‖), defined as exactly 0
whenever either norm is 0 (no division by zero); consequently it is 1 on any
vector with a non-zero entry paired with itself, and 0 against a zero
vector. -/
theorem cosineSim_spec (a b v : List ℝ) (n : ℕ) :
    ((norm a = 0 ∨ norm b = 0) → cosineSim a b = 0) ∧
    ((∃ x ∈ v, x ≠ 0) → cosineSim v v = 1) ∧
    cosineSim v (List.replicate n 0) = 0 := by
  refine ⟨?_, ?_, ?_⟩
  · intro h
    unfold cosineSim
    rcases h with h | h
    · rw [h, zero_mul]; simp
    · rw [h, mul_zero]; simp
  · rintro ⟨x, hx, hx0⟩
    have hd : 0 < dot v v := dot_self_pos v x hx hx0
    have hnn : norm v * norm v = dot v v := by
      rw [norm]; exact Real.mul_self_sqrt hd.le
    unfold cosineSim
    rw [hnn, if_neg hd.ne', div_self hd.ne']
  · unfold cosineSim
    rw [norm_replicate_zero, mul_zero]
    simp

/-- Witness for claim C6 at concrete vectors: the vector (1,0) is non-zero
and has self-similarity 1; its similarity against the zero vector is 0; and
the zero-norm hypothesis fires on the zero vector against (1,0). -/
theorem cosineSim_spec_witness :
    ((∃ x ∈ ([1, 0] : List ℝ), x ≠ 0) ∧ cosineSim [1, 0] [1, 0] = 1) ∧
    cosineSim [1, 0] (List.replicate 2 (0 : ℝ)) = 0 ∧
    (norm (List.replicate 2 (0 : ℝ)) = 0 ∧
      cosineSim (List.replicate 2 (0 : ℝ)) [1, 0] = 0) :=
  ⟨⟨⟨1, by simp, one_ne_zero⟩,
    (cosineSim_spec [1, 0] [1, 0] [1, 0] 2).2.1 ⟨1, by simp, one_ne_zero⟩⟩,
   (cosineSim_spec [1, 0] [1, 0] [1, 0] 2).2.2,
   ⟨norm_replicate_zero 2,
    (cosineSim_spec (List.replicate 2 (0 : ℝ)) [1, 0] [1, 0] 2).1
      (Or.inl (norm_replicate_zero 2))⟩⟩

/-- Claim C4: match(text, k) returns at most k entries, the returned entries
are pairwise sorted by non-increasing similarity score, and for every score
value the returned entries carrying it form a sublist of the catalog-order
scored entries carrying it — ties keep the catalog's original relative
order. -/
theorem matchCanonicalByEmbedding_spec (catalog : List CatalogRow)
    (qEmb : List ℝ) (topK : ℕ) :
    (matchCanonicalByEmbedding catalog qEmb topK).length ≤ topK ∧
    (matchCanonicalByEmbedding catalog qEmb topK).Pairwise scoreRel ∧
    ∀ s : ℝ,
      ((matchCanonicalByEmbedding catalog qEmb topK).filter
          (fun m => decide (m.score = s))).Sublist
        ((scoredEntries catalog qEmb).filter (fun m => decide (m.score = s))) := by
  haveI instTot : IsTotal PartMatch scoreRel := ⟨fun a b => le_total _ _⟩
  haveI instTrans : IsTrans PartMatch scoreRel :=
    ⟨fun _ _ _ h1 h2 => le_trans h2 h1⟩
  have hdef : matchCanonicalByEmbedding catalog qEmb topK =
      ((scoredEntries catalog qEmb).insertionSort scoreRel).take topK := rfl
  refine ⟨?_, ?_, ?_⟩
  · rw [hdef]; exact List.length_take_le topK _
  · rw [hdef]
    exact ((List.sorted_insertionSort scoreRel (scoredEntries catalog qEmb))).sublist
      (List.take_sublist topK _)
  · intro s
    set L := scoredEntries catalog qEmb with hL
    set p : PartMatch → Bool := fun m => decide (m.score = s) with hp
    have hApair : (L.filter p).Pairwise scoreRel := by
      refine List.pairwise_of_forall_mem_list ?_
      intro x hx y hy
      have hxs : x.score = s := of_decide_eq_true (List.mem_filter.mp hx).2
      have hys : y.score = s := of_decide_eq_true (List.mem_filter.mp hy).2
      show y.score ≤ x.score
      rw [hxs, hys]
    have hsub : (L.filter p).Sublist (L.insertionSort scoreRel) :=
      List.sublist_insertionSort hApair (List.filter_sublist L)
    have heq1 : (L.filter p).filter p = L.filter p :=
      List.filter_eq_self.mpr (fun a ha => (List.mem_filter.mp ha).2)
    have hsub2 : (L.filter p).Sublist ((L.insertionSort scoreRel).filter p) :=
      heq1 ▸ List.Sublist.filter p hsub
    have hperm : ((L.insertionSort scoreRel).filter p).Perm (L.filter p) :=
      (List.perm_insertionSort scoreRel L).filter p
    have heqfin : (L.filter p).length = ((L.insertionSort scoreRel).filter p).length :=
      hperm.length_eq.symm
    have hfe : (L.insertionSort scoreRel).filter p = L.filter p :=
      (hsub2.eq_of_length heqfin).symm
    rw [hdef, ← hfe]
    exact List.Sublist.filter p (List.take_sublist topK _)

/-- Characterization of exactly: the consumed characters number n and all lie
in the class. -/
theorem exactly_spec (p : Char → Bool) :
    ∀ (n : ℕ) (cs m r : List Char), exactly p n cs = some (m, r) →
      m.length = n ∧ ∀ c ∈ m, p c = true := by
  intro n
  induction n with
  | zero =>
    intro cs m r h
    simp only [exactly, Option.some.injEq, Prod.mk.injEq] at h
    rw [← h.1]
    simp
  | succ k ih =>
    intro cs m r h
    cases cs with
    | nil => simp [exactly] at h
    | cons c cs2 =>
      by_cases hpc : p c = true
      · rw [show exactly p (k + 1) (c :: cs2) =
            (exactly p k cs2).map (fun pr => (c :: pr.1, pr.2)) by
          simp [exactly, hpc]] at h
        rw [Option.map_eq_some'] at h
        obtain ⟨pr2, hpr2, heq⟩ := h
        obtain ⟨h1, h2⟩ := ih cs2 pr2.1 pr2.2 hpr2
        rw [Prod.mk.injEq] at heq
        rw [← heq.1]
        constructor
        · simp [h1]
        · intro x hx
          rcases List.mem_cons.mp hx with rfl | hx2
          · exact hpc
          · exact h2 x hx2
      · simp [exactly, hpc] at h

/-- A success of firstSome comes from a member of the candidate list. -/
theorem firstSome_spec (f : α → Option β) :
    ∀ (l : List α) (b : β), firstSome f l = some b → ∃ x ∈ l, f x = some b := by
  intro l
  induction l with
  | nil => intro b h; simp [firstSome] at h
  | cons x xs ih =>
    intro b h
    simp only [firstSome] at h
    cases hfx : f x with
    | some b2 =>
      rw [hfx] at h
      exact ⟨x, List.mem_cons_self x xs, hfx.trans h⟩
    | none =>
      rw [hfx] at h
      obtain ⟨y, hy, hfy⟩ := ih b h
      exact ⟨y, List.mem_cons_of_mem x hy, hfy⟩

/-- Elements taken from within the takeWhile region satisfy the predicate. -/
theorem mem_take_takeWhile (p : Char → Bool) :
    ∀ (cs : List Char) (k : ℕ), k ≤ (cs.takeWhile p).length →
      ∀ c ∈ cs.take k, p c = true := by
  intro cs
  induction cs with
  | nil => intro k hk c hc; simp at hc
  | cons a t ih =>
    intro k hk c hc
    cases k with
    | zero => simp at hc
    | succ k2 =>
      cases hpa : p a with
      | false =>
        rw [List.takeWhile_cons_of_neg (by simp [hpa])] at hk
        simp at hk
      | true =>
        rw [List.takeWhile_cons_of_pos hpa] at hk
        simp only [List.length_cons, Nat.succ_le_succ_iff] at hk
        simp only [List.take_succ_cons] at hc
        rcases List.mem_cons.mp hc with rfl | hc2
        · exact hpa
        · exact ih k2 hk c hc2

/-- Candidates of the bounded letter quantifier consist of letters, at most
maxN of them. -/
theorem lettersUpTo_spec (n : ℕ) (cs : List Char) (pr : List Char × List Char)
    (h : pr ∈ lettersUpTo n cs) :
    pr.1.length ≤ n ∧ ∀ c ∈ pr.1, isLetterC c = true := by
  simp only [lettersUpTo] at h
  rcases List.mem_map.mp h with ⟨k, hk, rfl⟩
  have hk2 : k < min (cs.takeWhile isLetterC).length n + 1 :=
    List.mem_range.mp (List.mem_reverse.mp hk)
  constructor
  · show (cs.take k).length ≤ n
    rw [List.length_take]
    omega
  · intro c hc
    exact mem_take_takeWhile isLetterC cs k (by omega) c hc

/-- Candidates of the whitespace star consist of whitespace. -/
theorem spaceSplits_spec (cs : List Char) (pr : List Char × List Char)
    (h : pr ∈ spaceSplits cs) : ∀ c ∈ pr.1, isSpaceC c = true := by
  simp only [spaceSplits] at h
  rcases List.mem_map.mp h with ⟨k, hk, rfl⟩
  intro c hc
  exact List.mem_takeWhile_imp (List.mem_of_mem_take hc)

/-- A success of the first alternative has the first grammar shape. -/
theorem tryAlt1_shape (cs m r : List Char) (h : tryAlt1 cs = some (m, r)) :
    rawShape1 m := by
  unfold tryAlt1 at h
  cases hd : exactly isDigitC 4 cs with
  | none => rw [hd] at h; simp at h
  | some dr =>
    rw [hd] at h
    simp only at h
    cases hl : exactly isLetterC 3 (dr.2.dropWhile isSpaceC) with
    | none => rw [hl] at h; simp at h
    | some lr =>
      rw [hl] at h
      simp only [Option.some.injEq, Prod.mk.injEq] at h
      have hdspec := exactly_spec isDigitC 4 cs dr.1 dr.2 hd
      have hlspec := exactly_spec isLetterC 3 (dr.2.dropWhile isSpaceC) lr.1 lr.2 hl
      refine ⟨dr.1, dr.2.takeWhile isSpaceC, lr.1, h.1.symm, hdspec.1, hdspec.2,
        ?_, hlspec.1, hlspec.2⟩
      intro c hc
      exact List.mem_takeWhile_imp hc

/-- A candidate of the second alternative has the second grammar shape. -/
theorem alt2Candidates_shape (cs : List Char) (pr : List Char × List Char)
    (h : pr ∈ alt2Candidates cs) : rawShape2 pr.1 := by
  simp only [alt2Candidates] at h
  rcases List.mem_flatMap.mp h with ⟨pre, hpre, hin⟩
  have hpre2 : 1 ≤ pre.1.length ∧ pre.1.length ≤ 2 ∧
      ∀ c ∈ pre.1, isLetterC c = true := by
    simp only [lettersOneTwo] at hpre
    have hmem := List.mem_filter.mp hpre
    have hlu := lettersUpTo_spec 2 cs pre hmem.1
    exact ⟨Nat.one_le_iff_ne_zero.mpr (of_decide_eq_true hmem.2), hlu.1, hlu.2⟩
  revert hin
  cases hdig : exactly isDigitC 4 (pre.2.dropWhile isSpaceC) with
  | none =>
    intro hin
    simp only [hdig] at hin
    exact absurd hin (List.not_mem_nil pr)
  | some dr =>
    intro hin
    simp only [hdig] at hin
    rcases List.mem_flatMap.mp hin with ⟨sp, hsp, hin2⟩
    rcases List.mem_map.mp hin2 with ⟨tl, htl, rfl⟩
    have hs2 := spaceSplits_spec dr.2 sp hsp
    have htl2 := lettersUpTo_spec 2 sp.2 tl htl
    have hdspec := exactly_spec isDigitC 4 (pre.2.dropWhile isSpaceC) dr.1 dr.2 hdig
    refine ⟨pre.1, pre.2.takeWhile isSpaceC, dr.1, sp.1, tl.1, rfl,
      hpre2.1, hpre2.2.1, hpre2.2.2, ?_, hdspec.1, hdspec.2, hs2, htl2.1, htl2.2⟩
    intro c hc
    exact List.mem_takeWhile_imp hc

/-- A match of the whole pattern at one position has one of the two grammar
shapes. -/
theorem matchHere_shape (prev : Option Char) (cs : List Char) (m : List Char)
    (h : matchHere prev cs = some m) : rawPlateShape m := by
  unfold matchHere at h
  by_cases hb : boundaryB prev cs.head? = true
  · rw [if_pos hb] at h
    obtain ⟨pr, hpr, hfpr⟩ := firstSome_spec _ _ _ h
    have hm : m = pr.1 := by
      cases hgl : pr.1.getLast? with
      | none =>
        rw [hgl] at hfpr
        exact Option.noConfusion (show (none : Option (List Char)) = some m from hfpr)
      | some lastC =>
        rw [hgl] at hfpr
        have hfpr2 : (if boundaryB (some lastC) pr.2.head? = true then some pr.1
            else (none : Option (List Char))) = some m := hfpr
        by_cases hbb : boundaryB (some lastC) pr.2.head? = true
        · rw [if_pos hbb] at hfpr2
          exact (Option.some.inj hfpr2).symm
        · rw [if_neg hbb] at hfpr2
          exact Option.noConfusion hfpr2
    rw [hm]
    rcases List.mem_append.mp hpr with hleft | hright
    · cases hta : tryAlt1 cs with
      | none => rw [hta] at hleft; exact absurd hleft (List.not_mem_nil pr)
      | some pr0 =>
        rw [hta] at hleft
        have hpr0 : pr = pr0 := by simpa using hleft
        subst hpr0
        exact Or.inl (tryAlt1_shape cs pr.1 pr.2 hta)
    · exact Or.inr (alt2Candidates_shape cs pr hright)
  · rw [if_neg hb] at h
    simp at h

/-- Any match the left-to-right scan produces has one of the two grammar
shapes. -/
theorem scanMatch_shape :
    ∀ (cs : List Char) (prev : Option Char) (m : List Char),
      scanMatch prev cs = some m → rawPlateShape m := by
  intro cs
  induction cs with
  | nil => intro prev m h; exact matchHere_shape prev [] m h
  | cons c rest ih =>
    intro prev m h
    simp only [scanMatch] at h
    cases hmh : matchHere prev (c :: rest) with
    | some m2 =>
      rw [hmh] at h
      exact Option.some.inj h ▸ matchHere_shape prev (c :: rest) m2 hmh
    | none =>
      rw [hmh] at h
      exact ih (some c) m h

/-- Claim C7, amended: plate detection recognizes exactly the two grammars
(four digits then three letters; one-or-two letters, four digits, zero-to-two
letters) with case-insensitive ASCII letter classes — there is no diacritic
stripping, so accented letters are outside the classes — and the reported
plate is the raw match normalized by uppercasing and removing internal
whitespace; in particular "1234 bcd" yields "1234BCD" and "ab 1234 cd"
yields "AB1234CD". -/
theorem extractPlate_spec :
    (∀ (text m : String), extractPlate text = some m →
      ∃ raw, rawPlateShape raw ∧ m = String.mk (cleanPlate raw)) ∧
    extractPlate "1234 bcd" = some "1234BCD" ∧
    extractPlate "ab 1234 cd" = some "AB1234CD" := by
  refine ⟨?_, by decide, by decide⟩
  intro text m h
  unfold extractPlate at h
  rw [Option.map_eq_some'] at h
  obtain ⟨raw, hraw, hm⟩ := h
  exact ⟨raw, scanMatch_shape text.data none raw hraw, hm.symm⟩

/-- Witness for claim C7 (amended), instantiating the grammar-shape clause at
the concrete match of "1234 bcd". -/
theorem extractPlate_spec_witness :
    ∃ raw, rawPlateShape raw ∧ "1234BCD" = String.mk (cleanPlate raw) :=
  extractPlate_spec.1 "1234 bcd" "1234BCD" (by decide)

/-- Claim C7, counterexample to the claim as stated: the unaccented input
"1234 bce" is matched and normalized, but the same plate written with an
accented final letter is not matched at all — the matcher does no diacritic
stripping. -/
theorem extractPlate_accent_not_matched :
    extractPlate "1234 bce" = some "1234BCE" ∧
    extractPlate "1234 bcé" = none :=
  ⟨by decide, by decide⟩

end Aura
